import Mathlib

/-!
Verification of the DMRC chatbot core: the session store with bounded,
time-aware memory (src/utils/session_memory.py) and the context-retrieval
engine (src/utils/retriever.py).

Timestamps and confidence scores are modelled as rationals (exact
arithmetic standing for Python floats), Python dicts as association
lists in insertion order, and the fixed-capacity deque as a list
trimmed to its last `capacity` elements on append.
-/

/-- One conversation entry (class ConversationEntry): immutable once created. -/
structure ConversationEntry where
  user_query : String
  bot_response : String
  timestamp : ℚ
  source : String
  confidence : ℚ
  context_used : List (String × String)
  metadata : List (String × String)
deriving DecidableEq

/-- The contents of `UserSession.session_stats` once populated by
`_update_stats`: the cumulative conversation counter and the running
average confidence.  A fresh (or freshly reset) session has an empty
stats dict, modelled as `none` at the use sites. -/
structure SessionStats where
  total_conversations : Nat
  avg_confidence : ℚ
deriving DecidableEq

/-- The capacity of the bounded conversation history:
`deque(maxlen=20)` in the source. -/
def historyCapacity : Nat := 20

/-- Append to a `deque(maxlen=cap)`: the new element goes on the back and,
past capacity, elements silently drop off the front. -/
def dequeAppend (cap : Nat) (xs : List ConversationEntry) (x : ConversationEntry) :
    List ConversationEntry :=
  let ys := xs ++ [x]
  if cap < ys.length then ys.drop (ys.length - cap) else ys

/-- A user session (class UserSession).  The empty Python `session_stats`
dict is `none`; a populated one is `some`. -/
structure UserSession where
  session_id : String
  created_at : ℚ
  last_accessed : ℚ
  conversation_history : List ConversationEntry
  user_preferences : List (String × String)
  session_stats : Option SessionStats
deriving DecidableEq

/-- `UserSession._update_stats`: initialise missing keys to zero, bump the
cumulative counter, and fold the new confidence into the running average as
`(current_avg * (total - 1) + confidence) / total`. -/
def updateStats (st : Option SessionStats) (confidence : ℚ) : SessionStats :=
  let tc0 : Nat := (st.map SessionStats.total_conversations).getD 0
  let avg0 : ℚ := (st.map SessionStats.avg_confidence).getD 0
  let total : Nat := tc0 + 1
  { total_conversations := total
    avg_confidence := (avg0 * ((total : ℚ) - 1) + confidence) / (total : ℚ) }

/-- `UserSession.add_conversation`: push the entry onto the bounded history,
stamp `last_accessed` with the current time, and update the stats. -/
def UserSession.add_conversation (s : UserSession) (entry : ConversationEntry)
    (now : ℚ) : UserSession :=
  { s with
    conversation_history := dequeAppend historyCapacity s.conversation_history entry
    last_accessed := now
    session_stats := some (updateStats s.session_stats entry.confidence) }

/-- `UserSession.get_recent_conversations`: Python
`list(self.conversation_history)[-count:]`.  For `count = 0` the slice
`[-0:]` is `[0:]`, i.e. the whole history; for positive `count` it is the
last `min(count, len)` elements.  `count : Nat` models the non-negative
Python ints the claims quantify over. -/
def UserSession.get_recent_conversations (s : UserSession) (count : Nat) :
    List ConversationEntry :=
  if count = 0 then s.conversation_history
  else s.conversation_history.drop (s.conversation_history.length - count)

/-- `UserSession.get_conversation_context`: the empty string when there is
no recent history, otherwise a fixed header followed by each entry's query
and response on their own lines, with a trailing blank line. -/
def UserSession.get_conversation_context (s : UserSession) (count : Nat) : String :=
  let recent := s.get_recent_conversations count
  if recent = [] then ""
  else
    (recent.foldl
      (fun acc e => acc ++ e.user_query ++ "\n" ++ e.bot_response ++ "\n")
      "Recent conversation context:\n") ++ "\n"

/-- `UserSession.is_expired`: `now - last_accessed > ttl_seconds`. -/
def UserSession.is_expired (s : UserSession) (ttl_seconds : ℚ) (now : ℚ) : Bool :=
  decide (ttl_seconds < now - s.last_accessed)

/-- The dictionary returned by `UserSession.get_session_info` (timestamps
kept as raw numbers rather than ISO strings — an injective renaming). -/
structure SessionInfo where
  session_id : String
  created_at : ℚ
  last_accessed : ℚ
  total_conversations : Nat
  stats : Option SessionStats
  preferences : List (String × String)
deriving DecidableEq

/-- `UserSession.get_session_info`: note the `total_conversations` field is
`len(self.conversation_history)` in the source. -/
def UserSession.get_session_info (s : UserSession) : SessionInfo :=
  { session_id := s.session_id
    created_at := s.created_at
    last_accessed := s.last_accessed
    total_conversations := s.conversation_history.length
    stats := s.session_stats
    preferences := s.user_preferences }

/-- The session `SessionMemory.create_session` inserts:
`created_at = last_accessed = now`, empty history, preferences and stats. -/
def freshSession (sid : String) (now : ℚ) : UserSession :=
  { session_id := sid
    created_at := now
    last_accessed := now
    conversation_history := []
    user_preferences := []
    session_stats := none }

/-- A run of `add_conversation` calls on one session: each list element is
the entry together with the clock value at that call. -/
def runAppends (s : UserSession) (l : List (ConversationEntry × ℚ)) : UserSession :=
  l.foldl (fun acc p => acc.add_conversation p.1 p.2) s

/-- The session store (class SessionMemory).  `self.sessions` is a Python
dict keyed by session id, modelled as an association list in insertion
order; the three counters are the `self.stats` dict. -/
structure SessionMemory where
  sessions : List (String × UserSession)
  max_sessions : Nat
  ttl_seconds : ℚ
  total_sessions_created : Nat
  total_sessions_expired : Nat
  total_conversations : Nat
deriving DecidableEq

/-- `SessionMemory.__init__`. -/
def SessionMemory.init (max_sessions : Nat) (ttl_seconds : ℚ) : SessionMemory :=
  { sessions := []
    max_sessions := max_sessions
    ttl_seconds := ttl_seconds
    total_sessions_created := 0
    total_sessions_expired := 0
    total_conversations := 0 }

/-- Dict lookup `self.sessions[sid]` / membership `sid in self.sessions`
on the insertion-ordered association list. -/
def lookupSession : List (String × UserSession) → String → Option UserSession
  | [], _ => none
  | p :: rest, k => if p.1 = k then some p.2 else lookupSession rest k

/-- In-place mutation of the session stored under a key:
`self.sessions[sid].f(...)` for a mutating method `f`. -/
def updateSessionAt (l : List (String × UserSession)) (k : String)
    (f : UserSession → UserSession) : List (String × UserSession) :=
  l.map (fun p => if p.1 = k then (p.1, f p.2) else p)

/-- `SessionMemory._cleanup_expired_sessions`: delete every expired session
and count the deletions into `total_sessions_expired`. -/
def SessionMemory.cleanup_expired_sessions (m : SessionMemory) (now : ℚ) :
    SessionMemory :=
  let expired := m.sessions.filter (fun p => p.2.is_expired m.ttl_seconds now)
  { m with
    sessions := m.sessions.filter (fun p => ! p.2.is_expired m.ttl_seconds now)
    total_sessions_expired := m.total_sessions_expired + expired.length }

/-- One comparison step of Python's `min(keys, key=...)`: the running
minimum is replaced only on a strictly smaller `last_accessed`, so the
first minimal entry in iteration order wins ties. -/
def minStep (acc : Option (String × UserSession)) (p : String × UserSession) :
    Option (String × UserSession) :=
  match acc with
  | none => some p
  | some q => if p.2.last_accessed < q.2.last_accessed then some p else some q

/-- Python's `min(self.sessions.keys(), key=lambda sid: ...last_accessed)`
over the insertion-ordered dict; `none` on the empty dict. -/
def minByLastAccessed (l : List (String × UserSession)) :
    Option (String × UserSession) :=
  l.foldl minStep none

/-- `SessionMemory._remove_oldest_session`: a no-op on an empty store,
otherwise delete the session with the smallest `last_accessed`. -/
def SessionMemory.remove_oldest_session (m : SessionMemory) : SessionMemory :=
  match minByLastAccessed m.sessions with
  | none => m
  | some q => { m with sessions := m.sessions.filter (fun p => p.1 ≠ q.1) }

/-- `SessionMemory.create_session` with a caller-supplied key (the
`session_id=None` branch draws a fresh uuid4 key from the environment and
then runs this same code, so it is modelled by the caller passing the
generated key).  If the key already exists the method returns it at once;
otherwise it sweeps expired sessions, evicts the oldest when at or over
capacity, and inserts a fresh session. -/
def SessionMemory.create_session (m : SessionMemory) (sid : String) (now : ℚ) :
    String × SessionMemory :=
  if (lookupSession m.sessions sid).isSome then (sid, m)
  else
    let m1 := m.cleanup_expired_sessions now
    let m2 := if m1.max_sessions ≤ m1.sessions.length
              then m1.remove_oldest_session else m1
    (sid,
      { m2 with
        sessions := m2.sessions ++ [(sid, freshSession sid now)]
        total_sessions_created := m2.total_sessions_created + 1 })

/-- A run of `create_session` calls: each list element is the supplied key
together with the clock value at that call. -/
def createMany (m : SessionMemory) (l : List (String × ℚ)) : SessionMemory :=
  l.foldl (fun acc p => (acc.create_session p.1 p.2).2) m

/-- `SessionMemory.add_conversation`: implicitly create the session when
the key is unknown, then build the entry (its timestamp is the current
time) and delegate to `UserSession.add_conversation`; always returns True. -/
def SessionMemory.add_conversation (m : SessionMemory) (sid : String)
    (user_query bot_response source : String) (confidence : ℚ)
    (context_used : List (String × String)) (metadata : List (String × String))
    (now : ℚ) : Bool × SessionMemory :=
  let m1 := if lookupSession m.sessions sid = none
            then (m.create_session sid now).2 else m
  let entry : ConversationEntry :=
    { user_query := user_query
      bot_response := bot_response
      timestamp := now
      source := source
      confidence := confidence
      context_used := context_used
      metadata := metadata }
  (true,
    { m1 with
      sessions := updateSessionAt m1.sessions sid
        (fun s => s.add_conversation entry now)
      total_conversations := m1.total_conversations + 1 })

/-- `SessionMemory.get_conversation_context`: the empty string for an
unknown key, otherwise delegate to the session.  The source performs no
mutation here, so the post-state (returned for uniformity with the write
operations) is the input store. -/
def SessionMemory.get_conversation_context (m : SessionMemory) (sid : String)
    (count : Nat) : String × SessionMemory :=
  match lookupSession m.sessions sid with
  | none => ("", m)
  | some s => (s.get_conversation_context count, m)

/-- `SessionMemory.get_recent_conversations`: the empty list for an unknown
key, otherwise delegate to the session.  The source performs no mutation
here, so the post-state is the input store. -/
def SessionMemory.get_recent_conversations (m : SessionMemory) (sid : String)
    (count : Nat) : List ConversationEntry × SessionMemory :=
  match lookupSession m.sessions sid with
  | none => ([], m)
  | some s => (s.get_recent_conversations count, m)

/-- Python `dict.update`: merge the new pairs into the dict
left-to-right, overwriting existing keys in place and appending new ones. -/
def dictUpdate (d new : List (String × String)) : List (String × String) :=
  new.foldl
    (fun acc p =>
      if acc.any (fun q => q.1 = p.1)
      then acc.map (fun q => if q.1 = p.1 then (q.1, p.2) else q)
      else acc ++ [p])
    d

/-- `SessionMemory.update_user_preferences`: False for an unknown key,
otherwise merge the preferences and stamp `last_accessed`. -/
def SessionMemory.update_user_preferences (m : SessionMemory) (sid : String)
    (preferences : List (String × String)) (now : ℚ) : Bool × SessionMemory :=
  match lookupSession m.sessions sid with
  | none => (false, m)
  | some _ =>
    (true,
      { m with
        sessions := updateSessionAt m.sessions sid
          (fun s => { s with
            user_preferences := dictUpdate s.user_preferences preferences
            last_accessed := now }) })

/-- `SessionMemory.reset_session`: False for an unknown key, otherwise
clear the history and the stats dict and stamp `last_accessed`. -/
def SessionMemory.reset_session (m : SessionMemory) (sid : String) (now : ℚ) :
    Bool × SessionMemory :=
  match lookupSession m.sessions sid with
  | none => (false, m)
  | some _ =>
    (true,
      { m with
        sessions := updateSessionAt m.sessions sid
          (fun s => { s with
            conversation_history := []
            session_stats := none
            last_accessed := now }) })

/-- `SessionMemory.get_all_sessions`: the info snapshot of every session in
the store. -/
def SessionMemory.get_all_sessions (m : SessionMemory) : List SessionInfo :=
  m.sessions.map (fun p => p.2.get_session_info)

/-!
The retriever (src/utils/retriever.py).  The module-level corpus,
embeddings and answers are parameters; `embed_query` is the opaque,
fallible external embedder, so its outcome at the query is a parameter of
type `Option (List ℚ)` — `none` is the exception path of the try block,
which `retrieve_top_k` converts to an empty result.  Embeddings are
unit-normalized at ingestion (the embedder's contract), so
`cosine_similarity` is the plain dot product.
-/

/-- Cosine similarity on unit-normalized vectors: the dot product. -/
def cosineSim (u v : List ℚ) : ℚ :=
  (List.zipWith (fun a b => a * b) u v).sum

/-- `scores[idx]` with numpy's float array read back as a total lookup. -/
def scoreAt (scores : List ℚ) (i : Nat) : ℚ :=
  scores.getD i 0

/-- `scores.argsort()[::-1][:k]`: the indices of the scores sorted in
descending score order (tie order may differ from numpy's, which no claim
touches), truncated to the first `k`. -/
def topIndices (scores : List ℚ) (k : Nat) : List Nat :=
  ((List.range scores.length).mergeSort
    (fun i j => decide (scoreAt scores j ≤ scoreAt scores i))).take k

/-- The loop over `top_idx` keeping the indices whose score clears the
threshold. -/
def retrievedIndices (scores : List ℚ) (k : Nat) (threshold : ℚ) : List Nat :=
  (topIndices scores k).filter (fun i => decide (threshold ≤ scoreAt scores i))

/-- `retrieve_top_k`: empty on an unloaded corpus; on embedder failure the
except branch returns empty; otherwise score every corpus embedding
against the query vector, keep the top-k indices above threshold in
descending score order, and read back the (question, answer) pairs. -/
def retrieve_top_k (corpus : List String) (embeddings : List (List ℚ))
    (answers : List String) (queryResult : Option (List ℚ)) (k : Nat)
    (threshold : ℚ) : List (String × String) :=
  if corpus = [] ∨ embeddings = [] then []
  else
    match queryResult with
    | none => []
    | some qv =>
      let scores := embeddings.map (fun e => cosineSim qv e)
      (retrievedIndices scores k threshold).map
        (fun i => (corpus.getD i "", answers.getD i ""))

/-- The sum of the confidences of a run of appends. -/
def confSum (l : List (ConversationEntry × ℚ)) : ℚ :=
  (l.map (fun p => p.1.confidence)).sum

theorem runAppends_nil (s : UserSession) : runAppends s [] = s := rfl

theorem runAppends_cons (s : UserSession) (p : ConversationEntry × ℚ)
    (rest : List (ConversationEntry × ℚ)) :
    runAppends s (p :: rest) = runAppends (s.add_conversation p.1 p.2) rest := rfl

theorem runAppends_append (s : UserSession) (l₁ l₂ : List (ConversationEntry × ℚ)) :
    runAppends s (l₁ ++ l₂) = runAppends (runAppends s l₁) l₂ := by
  simp [runAppends]

theorem stats_add_conversation (s : UserSession) (e : ConversationEntry) (now : ℚ) :
    (s.add_conversation e now).session_stats =
      some (updateStats s.session_stats e.confidence) := rfl

theorem updateStats_some (m : Nat) (a c : ℚ) :
    updateStats (some ⟨m, a⟩) c =
      ⟨m + 1, (a * ((((m + 1 : Nat)) : ℚ) - 1) + c) / ((m + 1 : Nat) : ℚ)⟩ := rfl

theorem updateStats_none (c : ℚ) : updateStats none c = ⟨1, c⟩ := by
  simp [updateStats]

/-- Running average invariant: starting from populated stats `⟨m, a⟩` with
`m > 0`, a run of appends leaves the counter at `m + n` and the average at
the exact weighted mean. -/
theorem stats_runAppends (l : List (ConversationEntry × ℚ)) :
    ∀ (s : UserSession) (m : Nat) (a : ℚ), 0 < m →
      s.session_stats = some ⟨m, a⟩ →
      (runAppends s l).session_stats =
        some ⟨m + l.length,
              (a * (m : ℚ) + confSum l) / ((m : ℚ) + (l.length : ℚ))⟩ := by
  induction l with
  | nil =>
    intro s m a hm hs
    have hm0 : (m : ℚ) ≠ 0 := Nat.cast_ne_zero.mpr hm.ne'
    simp only [runAppends_nil, hs, confSum, List.map_nil, List.sum_nil,
      List.length_nil, Nat.add_zero, Nat.cast_zero, add_zero]
    congr 1
    congr 1
    field_simp
  | cons p rest ih =>
    intro s m a hm hs
    rw [runAppends_cons]
    have hstep : (s.add_conversation p.1 p.2).session_stats =
        some ⟨m + 1, (a * (m : ℚ) + p.1.confidence) / ((m : ℚ) + 1)⟩ := by
      rw [stats_add_conversation, hs, updateStats_some]
      congr 2
      push_cast
      ring
    rw [ih _ (m + 1) _ (Nat.succ_pos m) hstep]
    have hm1 : ((m : ℚ) + 1) ≠ 0 := by positivity
    congr 1
    congr 1
    · simp only [List.length_cons]
      omega
    · have : (a * (m : ℚ) + p.1.confidence) / ((m : ℚ) + 1) * ((m + 1 : Nat) : ℚ)
          = a * (m : ℚ) + p.1.confidence := by
        push_cast
        field_simp
      rw [this]
      simp only [confSum, List.map_cons, List.sum_cons, List.length_cons]
      push_cast
      ring_nf

/-- C1: for every session with an empty stats dict (fresh or freshly
reset), after `n ≥ 1` appends with confidences `c₁..cₙ` the stats hold the
counter `n` and the exact arithmetic mean `(c₁+...+cₙ)/n`, even when `n`
exceeds the bounded history capacity. -/
theorem C1_avg_confidence_is_mean (s : UserSession)
    (l : List (ConversationEntry × ℚ)) (hs : s.session_stats = none)
    (hl : l ≠ []) :
    (runAppends s l).session_stats =
      some ⟨l.length, confSum l / (l.length : ℚ)⟩ := by
  match l with
  | [] => exact absurd rfl hl
  | p :: rest =>
    rw [runAppends_cons]
    have hstep : (s.add_conversation p.1 p.2).session_stats =
        some ⟨1, p.1.confidence⟩ := by
      rw [stats_add_conversation, hs, updateStats_none]
    rw [stats_runAppends rest _ 1 _ Nat.one_pos hstep]
    congr 1
    congr 1
    · simp only [List.length_cons]
      omega
    · simp only [confSum, List.map_cons, List.sum_cons, List.length_cons]
      push_cast
      ring_nf

/-- A concrete instance of the mean-confidence law: two appends with
confidences 1 and 0 from a fresh session give average 1/2. -/
theorem C1_avg_confidence_is_mean_witness :
    (freshSession "s" 0).session_stats = none ∧
    ([(({ user_query := "q", bot_response := "r", timestamp := 1,
          source := "dmrc_rag", confidence := 1, context_used := [],
          metadata := [] } : ConversationEntry), (1 : ℚ)),
      (({ user_query := "q2", bot_response := "r2", timestamp := 2,
          source := "dmrc_rag", confidence := 0, context_used := [],
          metadata := [] } : ConversationEntry), (2 : ℚ))] :
        List (ConversationEntry × ℚ)) ≠ [] ∧
    (runAppends (freshSession "s" 0)
      [(({ user_query := "q", bot_response := "r", timestamp := 1,
           source := "dmrc_rag", confidence := 1, context_used := [],
           metadata := [] } : ConversationEntry), (1 : ℚ)),
       (({ user_query := "q2", bot_response := "r2", timestamp := 2,
           source := "dmrc_rag", confidence := 0, context_used := [],
           metadata := [] } : ConversationEntry), (2 : ℚ))]).session_stats =
      some ⟨2, confSum
        [(({ user_query := "q", bot_response := "r", timestamp := 1,
             source := "dmrc_rag", confidence := 1, context_used := [],
             metadata := [] } : ConversationEntry), (1 : ℚ)),
         (({ user_query := "q2", bot_response := "r2", timestamp := 2,
             source := "dmrc_rag", confidence := 0, context_used := [],
             metadata := [] } : ConversationEntry), (2 : ℚ))] / (2 : ℚ)⟩ :=
  ⟨rfl, by decide, C1_avg_confidence_is_mean _ _ rfl (by decide)⟩

theorem length_dequeAppend (cap : Nat) (xs : List ConversationEntry)
    (x : ConversationEntry) :
    (dequeAppend cap xs x).length = min (xs.length + 1) cap := by
  simp only [dequeAppend]
  split
  · simp only [List.length_drop, List.length_append, List.length_cons,
      List.length_nil]
    omega
  · simp_all only [List.length_append, List.length_cons, List.length_nil]
    omega

/-- History-length invariant: a run of appends starting within capacity
leaves `len(history) = min (len₀ + n) capacity`. -/
theorem length_runAppends (l : List (ConversationEntry × ℚ)) :
    ∀ s : UserSession, s.conversation_history.length ≤ historyCapacity →
      (runAppends s l).conversation_history.length =
        min (s.conversation_history.length + l.length) historyCapacity := by
  induction l with
  | nil =>
    intro s h
    simp only [runAppends_nil, List.length_nil, Nat.add_zero]
    omega
  | cons p rest ih =>
    intro s h
    rw [runAppends_cons]
    have hlen : (s.add_conversation p.1 p.2).conversation_history.length =
        min (s.conversation_history.length + 1) historyCapacity :=
      length_dequeAppend _ _ _
    rw [ih _ (by rw [hlen]; omega), hlen]
    simp only [List.length_cons]
    omega

/-- C2: after `n` appends from a fresh session the history holds exactly
`min n capacity` entries; in particular it never exceeds the capacity, the
oldest entry being silently dropped on an append at capacity. -/
theorem C2_history_length_min (sid : String) (t : ℚ)
    (l : List (ConversationEntry × ℚ)) :
    (runAppends (freshSession sid t) l).conversation_history.length =
      min l.length historyCapacity := by
  have h := length_runAppends l (freshSession sid t)
    (by simp [freshSession, historyCapacity])
  simpa [freshSession] using h

/-- A demonstration entry used by the concrete counterexamples below. -/
def demoEntry : ConversationEntry :=
  { user_query := "q"
    bot_response := "r"
    timestamp := 0
    source := "dmrc_rag"
    confidence := 1
    context_used := []
    metadata := [] }

/-- A session holding a single history entry. -/
def demoSessionOne : UserSession :=
  { freshSession "s" 0 with conversation_history := [demoEntry] }

/-- C9 counterexample: `get_recent_conversations 0` returns the whole
(nonempty) history — Python `list[-0:]` is the full list — not the empty
list the claim requires (`min(0, len) = 0` entries). -/
theorem C9_cex_count_zero_returns_whole_history :
    demoSessionOne.get_recent_conversations 0 = [demoEntry] ∧
    demoSessionOne.get_recent_conversations 0 ≠ [] := by
  constructor
  · rfl
  · decide

/-- C9 amended: for `count ≥ 1`, `get_recent_conversations` returns
exactly the last `min count len` entries, as the literal suffix of the
history (hence in chronological order). -/
theorem C9_amended_recent_entries_suffix (s : UserSession) (count : Nat)
    (h : 0 < count) :
    (s.get_recent_conversations count).length =
      min count s.conversation_history.length ∧
    s.conversation_history =
      s.conversation_history.take (s.conversation_history.length - count) ++
        s.get_recent_conversations count := by
  unfold UserSession.get_recent_conversations
  rw [if_neg h.ne']
  refine ⟨?_, (List.take_append_drop _ _).symm⟩
  rw [List.length_drop]
  omega

/-- A concrete instance of the amended recent-entries law at count 2 on a
one-entry history. -/
theorem C9_amended_recent_entries_suffix_witness :
    0 < 2 ∧
    ((demoSessionOne.get_recent_conversations 2).length =
        min 2 demoSessionOne.conversation_history.length ∧
      demoSessionOne.conversation_history =
        demoSessionOne.conversation_history.take
          (demoSessionOne.conversation_history.length - 2) ++
          demoSessionOne.get_recent_conversations 2) :=
  ⟨by decide, C9_amended_recent_entries_suffix demoSessionOne 2 (by decide)⟩

/-- Twenty-one appends, one past the history capacity. -/
def entries21 : List (ConversationEntry × ℚ) :=
  (List.range 21).map (fun i => (demoEntry, (i : ℚ)))

/-- The session after twenty-one appends from fresh. -/
def demoSession21 : UserSession := runAppends (freshSession "s" 0) entries21

/-- C10 counterexample: after 21 appends the snapshot's
`total_conversations` field reads the bounded window length 20, while the
cumulative counter in the stats dict reads 21 — the snapshot field does
not equal the cumulative counter. -/
theorem C10_cex_info_counts_window :
    demoSession21.get_session_info.total_conversations = 20 ∧
    (demoSession21.session_stats.map SessionStats.total_conversations).getD 0 = 21 ∧
    (20 : Nat) ≠ 21 := by
  refine ⟨by decide, by decide, by decide⟩

theorem statsCount_runAppends (l : List (ConversationEntry × ℚ)) :
    ∀ s : UserSession,
      ((runAppends s l).session_stats.map SessionStats.total_conversations).getD 0 =
        (s.session_stats.map SessionStats.total_conversations).getD 0 + l.length := by
  induction l with
  | nil =>
    intro s
    simp [runAppends_nil]
  | cons p rest ih =>
    intro s
    rw [runAppends_cons, ih]
    simp only [UserSession.add_conversation, updateStats]
    simp only [Option.map_some', Option.getD_some, List.length_cons]
    omega

/-- C10 amended: the snapshot's `total_conversations` field equals the
bounded window length `min n capacity`, while the cumulative counter lives
separately in the stats dict and equals `n`. -/
theorem C10_amended_info_counts (sid : String) (t : ℚ)
    (l : List (ConversationEntry × ℚ)) :
    (runAppends (freshSession sid t) l).get_session_info.total_conversations =
      min l.length historyCapacity ∧
    ((runAppends (freshSession sid t) l).session_stats.map
        SessionStats.total_conversations).getD 0 = l.length := by
  constructor
  · have h := length_runAppends l (freshSession sid t)
      (by simp [freshSession, historyCapacity])
    simpa [freshSession, UserSession.get_session_info] using h
  · have h := statsCount_runAppends l (freshSession sid t)
    simpa [freshSession] using h

/-- C6: creating a session under a key already present returns the key at
once and leaves the store — hence the existing session's history,
statistics and preferences — unchanged. -/
theorem C6_create_session_idempotent (m : SessionMemory) (sid : String)
    (now : ℚ) (h : (lookupSession m.sessions sid).isSome) :
    m.create_session sid now = (sid, m) := by
  unfold SessionMemory.create_session
  rw [if_pos h]

/-- A store holding one fresh session under key "a". -/
def demoStore : SessionMemory :=
  { sessions := [("a", freshSession "a" 0)]
    max_sessions := 100
    ttl_seconds := 3600
    total_sessions_created := 1
    total_sessions_expired := 0
    total_conversations := 0 }

/-- A concrete instance of create-session idempotence under key "a". -/
theorem C6_create_session_idempotent_witness :
    (lookupSession demoStore.sessions "a").isSome ∧
    demoStore.create_session "a" 5 = ("a", demoStore) :=
  ⟨by decide, C6_create_session_idempotent demoStore "a" 5 (by decide)⟩

/-- C7: retrieval degrades to the empty list: an unloaded corpus (empty
corpus or embeddings) or a failed query embedding yields `[]` rather than
propagating the failure. -/
theorem C7_retrieve_degrades_to_empty (corpus : List String)
    (embeddings : List (List ℚ)) (answers : List String)
    (queryResult : Option (List ℚ)) (k : Nat) (threshold : ℚ)
    (h : corpus = [] ∨ embeddings = [] ∨ queryResult = none) :
    retrieve_top_k corpus embeddings answers queryResult k threshold = [] := by
  unfold retrieve_top_k
  rcases h with h | h | h
  · rw [if_pos (Or.inl h)]
  · rw [if_pos (Or.inr h)]
  · subst h
    split <;> rfl

/-- A concrete instance of retrieval degradation: an empty embedding store
returns no results. -/
theorem C7_retrieve_degrades_to_empty_witness :
    ((["How to buy a metro card?"] : List String) = [] ∨
      ([] : List (List ℚ)) = [] ∨ (some [1] : Option (List ℚ)) = none) ∧
    retrieve_top_k ["How to buy a metro card?"] [] ["Use the TVM."]
      (some [1]) 3 (11/20) = [] :=
  ⟨Or.inr (Or.inl rfl),
    C7_retrieve_degrades_to_empty _ _ _ _ _ _ (Or.inr (Or.inl rfl))⟩

/-- A store holding the one-entry session under key "a", last accessed at
time 0. -/
def demoStoreA : SessionMemory :=
  { sessions := [("a", demoSessionOne)]
    max_sessions := 100
    ttl_seconds := 3600
    total_sessions_created := 1
    total_sessions_expired := 0
    total_conversations := 1 }

/-- C8 counterexample: the read operations `get_recent_conversations` and
`get_conversation_context` perform no mutation at all — the post-state is
the input store, and the session's `last_accessed` still holds its old
value 0 rather than the (later) time of the read. -/
theorem C8_cex_reads_do_not_touch_last_accessed :
    (demoStoreA.get_recent_conversations "a" 5).2 = demoStoreA ∧
    (demoStoreA.get_conversation_context "a" 3).2 = demoStoreA ∧
    (lookupSession demoStoreA.sessions "a").map UserSession.last_accessed =
      some 0 :=
  ⟨rfl, rfl, by decide⟩

theorem lookup_updateSessionAt (k : String) (f : UserSession → UserSession) :
    ∀ l : List (String × UserSession),
      lookupSession (updateSessionAt l k f) k = (lookupSession l k).map f := by
  intro l
  induction l with
  | nil => rfl
  | cons p rest ih =>
    simp only [updateSessionAt, List.map_cons] at ih ⊢
    by_cases h : p.1 = k
    · simp [lookupSession, h]
    · simp only [if_neg h, lookupSession, ih]

/-- C8 amended: the write operations (`add_conversation`,
`update_user_preferences`, `reset_session`) stamp the session's
`last_accessed` with the current time, while the read operations
(`get_recent_conversations`, `get_conversation_context`) leave the store —
and so every `last_accessed` — unchanged. -/
theorem C8_amended_writes_update_last_accessed (m : SessionMemory)
    (sid : String) (s : UserSession) (uq br src : String) (conf : ℚ)
    (cu md prefs : List (String × String)) (count : Nat) (now : ℚ)
    (h : lookupSession m.sessions sid = some s) :
    (lookupSession ((m.add_conversation sid uq br src conf cu md now).2).sessions
        sid).map UserSession.last_accessed = some now ∧
    (lookupSession ((m.update_user_preferences sid prefs now).2).sessions
        sid).map UserSession.last_accessed = some now ∧
    (lookupSession ((m.reset_session sid now).2).sessions sid).map
      UserSession.last_accessed = some now ∧
    (m.get_recent_conversations sid count).2 = m ∧
    (m.get_conversation_context sid count).2 = m := by
  have hns : ¬ lookupSession m.sessions sid = none := by
    rw [h]
    exact Option.some_ne_none s
  refine ⟨?_, ?_, ?_, ?_, ?_⟩
  · simp only [SessionMemory.add_conversation, if_neg hns]
    rw [lookup_updateSessionAt, h]
    rfl
  · simp only [SessionMemory.update_user_preferences, h]
    rw [lookup_updateSessionAt, h]
    rfl
  · simp only [SessionMemory.reset_session, h]
    rw [lookup_updateSessionAt, h]
    rfl
  · simp [SessionMemory.get_recent_conversations, h]
  · simp [SessionMemory.get_conversation_context, h]

/-- A concrete instance of the amended last-accessed law on the demo
store at time 7. -/
theorem C8_amended_writes_update_last_accessed_witness :
    lookupSession demoStoreA.sessions "a" = some demoSessionOne ∧
    ((lookupSession ((demoStoreA.add_conversation "a" "q" "r" "dmrc_rag" 1 [] []
          7).2).sessions "a").map UserSession.last_accessed = some 7 ∧
      (lookupSession ((demoStoreA.update_user_preferences "a" [("lang", "en")]
          7).2).sessions "a").map UserSession.last_accessed = some 7 ∧
      (lookupSession ((demoStoreA.reset_session "a" 7).2).sessions "a").map
        UserSession.last_accessed = some 7 ∧
      (demoStoreA.get_recent_conversations "a" 5).2 = demoStoreA ∧
      (demoStoreA.get_conversation_context "a" 5).2 = demoStoreA) :=
  ⟨by decide,
    C8_amended_writes_update_last_accessed demoStoreA "a" demoSessionOne
      "q" "r" "dmrc_rag" 1 [] [] [("lang", "en")] 5 7 (by decide)⟩

/-- A store with ttl 10 holding session "a" (idle since time 0) and
session "b" (accessed at time 95). -/
def demoStoreExpired : SessionMemory :=
  { sessions := [("a", freshSession "a" 0), ("b", freshSession "b" 95)]
    max_sessions := 100
    ttl_seconds := 10
    total_sessions_created := 2
    total_sessions_expired := 0
    total_conversations := 0 }

/-- C5 counterexample: at time 100 session "a" has been idle for 100 > ttl
= 10 seconds, yet after a subsequent `create_session` call on the already
present key "b" — which returns early and skips the expiry sweep — "a" is
still listed by `get_all_sessions`. -/
theorem C5_cex_existing_key_skips_expiry :
    lookupSession demoStoreExpired.sessions "a" = some (freshSession "a" 0) ∧
    (freshSession "a" 0).is_expired demoStoreExpired.ttl_seconds 100 = true ∧
    ((demoStoreExpired.create_session "b" 100).2.get_all_sessions).map
      SessionInfo.session_id = ["a", "b"] :=
  ⟨by decide,
    by norm_num [UserSession.is_expired, freshSession, demoStoreExpired],
    by decide⟩

theorem lookupSession_of_mem_nodup :
    ∀ {l : List (String × UserSession)}, (l.map Prod.fst).Nodup →
      ∀ {p : String × UserSession}, p ∈ l → lookupSession l p.1 = some p.2 := by
  intro l
  induction l with
  | nil =>
    intro _ p hp
    cases hp
  | cons q rest ih =>
    intro hnodup p hp
    rcases List.mem_cons.mp hp with rfl | hp'
    · simp [lookupSession]
    · have hq : ¬ q.1 = p.1 := by
        intro he
        have hmem : p.1 ∈ rest.map Prod.fst := List.mem_map_of_mem Prod.fst hp'
        have hnot : q.1 ∉ rest.map Prod.fst :=
          (List.nodup_cons.mp (by simpa using hnodup)).1
        exact hnot (he ▸ hmem)
      have htail : (rest.map Prod.fst).Nodup :=
        (List.nodup_cons.mp (by simpa using hnodup)).2
      simp only [lookupSession, if_neg hq]
      exact ih htail hp'

theorem mem_remove_oldest_sessions {m : SessionMemory}
    {p : String × UserSession} (hp : p ∈ m.remove_oldest_session.sessions) :
    p ∈ m.sessions := by
  unfold SessionMemory.remove_oldest_session at hp
  cases h : minByLastAccessed m.sessions with
  | none =>
    rw [h] at hp
    exact hp
  | some q =>
    rw [h] at hp
    exact List.mem_of_mem_filter hp

/-- C5 amended: an expired session is absent from `get_all_sessions` after
any subsequent `create_session` call whose key is not already present in
the store.  (A call on an already present key returns early and performs
no expiry sweep, so there the claim fails — see the counterexample.) -/
theorem C5_amended_expiry_on_new_key (m : SessionMemory) (sid k : String)
    (s : UserSession) (now : ℚ)
    (hnodup : (m.sessions.map Prod.fst).Nodup)
    (hwf : ∀ p ∈ m.sessions, p.2.session_id = p.1)
    (hnew : lookupSession m.sessions sid = none)
    (hk : lookupSession m.sessions k = some s)
    (hexp : s.is_expired m.ttl_seconds now = true) :
    ∀ info ∈ ((m.create_session sid now).2).get_all_sessions,
      info.session_id ≠ k := by
  have hsid : ¬ (lookupSession m.sessions sid).isSome = true := by
    simp [hnew]
  have hkne : sid ≠ k := by
    intro he
    rw [he, hk] at hnew
    exact Option.some_ne_none s hnew
  intro info hinfo
  unfold SessionMemory.create_session at hinfo
  rw [if_neg hsid] at hinfo
  simp only [SessionMemory.get_all_sessions, List.mem_map] at hinfo
  obtain ⟨p, hp, rfl⟩ := hinfo
  rcases List.mem_append.mp hp with hp' | hp'
  · have hpclean : p ∈ (m.cleanup_expired_sessions now).sessions := by
      by_cases hc : (m.cleanup_expired_sessions now).max_sessions ≤
          (m.cleanup_expired_sessions now).sessions.length
      · rw [if_pos hc] at hp'
        exact mem_remove_oldest_sessions hp'
      · rw [if_neg hc] at hp'
        exact hp'
    have hfilter : p ∈
        m.sessions.filter (fun q => ! q.2.is_expired m.ttl_seconds now) :=
      hpclean
    have hmem : p ∈ m.sessions := List.mem_of_mem_filter hfilter
    have hlive : p.2.is_expired m.ttl_seconds now = false := by
      have := List.of_mem_filter hfilter
      simpa using this
    intro hkeq
    have hid : p.2.session_id = p.1 := hwf p hmem
    have hp1 : p.1 = k := hid ▸ hkeq
    have hlk : lookupSession m.sessions k = some p.2 := by
      rw [← hp1]
      exact lookupSession_of_mem_nodup hnodup hmem
    have hps : p.2 = s := Option.some.inj (hlk.symm.trans hk)
    rw [hps, hexp] at hlive
    simp at hlive
  · have hpe : p = (sid, freshSession sid now) := by simpa using hp'
    rw [hpe]
    simpa [UserSession.get_session_info, freshSession] using hkne

/-- A concrete instance of the amended expiry law: creating the absent key
"c" at time 100 sweeps out the expired session "a". -/
theorem C5_amended_expiry_on_new_key_witness :
    (demoStoreExpired.sessions.map Prod.fst).Nodup ∧
    (∀ p ∈ demoStoreExpired.sessions, p.2.session_id = p.1) ∧
    lookupSession demoStoreExpired.sessions "c" = none ∧
    lookupSession demoStoreExpired.sessions "a" = some (freshSession "a" 0) ∧
    (freshSession "a" 0).is_expired demoStoreExpired.ttl_seconds 100 = true ∧
    ∀ info ∈ ((demoStoreExpired.create_session "c" 100).2).get_all_sessions,
      info.session_id ≠ "a" :=
  ⟨by decide, by decide, by decide, by decide,
    by norm_num [UserSession.is_expired, freshSession, demoStoreExpired],
    C5_amended_expiry_on_new_key demoStoreExpired "c" "a" (freshSession "a" 0)
      100 (by decide) (by decide) (by decide) (by decide)
      (by norm_num [UserSession.is_expired, freshSession, demoStoreExpired])⟩

theorem mem_retrievedIndices {scores : List ℚ} {k : Nat} {t : ℚ} {i : Nat}
    (hi : i ∈ retrievedIndices scores k t) :
    i < scores.length ∧ t ≤ scoreAt scores i := by
  have hi' : i ∈ (topIndices scores k).filter
      (fun j => decide (t ≤ scoreAt scores j)) := hi
  have h1 : i ∈ topIndices scores k := List.mem_of_mem_filter hi'
  have ht := List.of_mem_filter hi'
  have h2 : i ∈ (List.range scores.length).mergeSort
      (fun i j => decide (scoreAt scores j ≤ scoreAt scores i)) :=
    List.take_sublist _ _ |>.subset h1
  have h3 : i ∈ List.range scores.length := List.mem_mergeSort.mp h2
  exact ⟨List.mem_range.mp h3, of_decide_eq_true ht⟩

theorem length_retrievedIndices (scores : List ℚ) (k : Nat) (t : ℚ) :
    (retrievedIndices scores k t).length ≤ k := by
  refine le_trans (List.length_filter_le _ _) ?_
  unfold topIndices
  rw [List.length_take]
  exact min_le_left _ _

theorem sorted_retrievedIndices (scores : List ℚ) (k : Nat) (t : ℚ) :
    (retrievedIndices scores k t).Pairwise
      (fun i j => scoreAt scores j ≤ scoreAt scores i) := by
  have hsorted : ((List.range scores.length).mergeSort
      (fun i j => decide (scoreAt scores j ≤ scoreAt scores i))).Pairwise
        (fun i j => decide (scoreAt scores j ≤ scoreAt scores i) = true) :=
    List.sorted_mergeSort
      (fun a b c hab hbc => by
        simp only [decide_eq_true_eq] at hab hbc ⊢
        exact le_trans hbc hab)
      (fun a b => by
        simp only [Bool.or_eq_true, decide_eq_true_eq]
        exact le_total _ _)
      (List.range scores.length)
  have h1 : (topIndices scores k).Pairwise
      (fun i j => decide (scoreAt scores j ≤ scoreAt scores i) = true) :=
    hsorted.sublist (List.take_sublist _ _)
  have h2 : (retrievedIndices scores k t).Pairwise
      (fun i j => decide (scoreAt scores j ≤ scoreAt scores i) = true) :=
    h1.sublist (List.filter_sublist _)
  exact h2.imp (fun h => of_decide_eq_true h)

theorem scoreAt_map (qv : List ℚ) (embeddings : List (List ℚ)) (i : Nat)
    (hi : i < embeddings.length) :
    scoreAt (embeddings.map (fun e => cosineSim qv e)) i =
      cosineSim qv (embeddings.getD i []) := by
  unfold scoreAt
  rw [List.getD_eq_getElem _ _ (by simpa using hi),
    List.getD_eq_getElem _ _ hi, List.getElem_map]

/-- C3: retrieval returns at most `k` pairs, every returned pair is a
corpus entry whose similarity against the query embedding clears the
threshold, and the retrieved indices carry non-increasing similarity
scores (the order in which `retrieve_top_k` reads the pairs back). -/
theorem C3_retrieve_top_k_spec (corpus : List String)
    (embeddings : List (List ℚ)) (answers : List String) (qv : List ℚ)
    (k : Nat) (t : ℚ) :
    (retrieve_top_k corpus embeddings answers (some qv) k t).length ≤ k ∧
    (∀ p ∈ retrieve_top_k corpus embeddings answers (some qv) k t,
      ∃ i, i < embeddings.length ∧ t ≤ cosineSim qv (embeddings.getD i []) ∧
        p = (corpus.getD i "", answers.getD i "")) ∧
    ((retrievedIndices (embeddings.map (fun e => cosineSim qv e)) k t).map
        (fun i => scoreAt (embeddings.map (fun e => cosineSim qv e)) i)).Pairwise
      (fun a b => b ≤ a) := by
  refine ⟨?_, ?_, ?_⟩
  · unfold retrieve_top_k
    split
    · simp
    · simp only [List.length_map]
      exact length_retrievedIndices _ _ _
  · intro p hp
    unfold retrieve_top_k at hp
    split at hp
    · simp at hp
    · simp only [List.mem_map] at hp
      obtain ⟨i, hi, rfl⟩ := hp
      obtain ⟨hilt, hsc⟩ := mem_retrievedIndices hi
      have hilt' : i < embeddings.length := by simpa using hilt
      refine ⟨i, hilt', ?_, rfl⟩
      rw [← scoreAt_map qv embeddings i hilt']
      exact hsc
  · exact List.pairwise_map.mpr (sorted_retrievedIndices _ _ _)

/-- The association list of fresh sessions created from keyed timestamps. -/
def freshEntries (l : List (String × ℚ)) : List (String × UserSession) :=
  l.map (fun p => (p.1, freshSession p.1 p.2))

theorem freshEntries_map_fst (l : List (String × ℚ)) :
    (freshEntries l).map Prod.fst = l.map Prod.fst := by
  simp [freshEntries]

theorem lookupSession_eq_none (k : String) :
    ∀ l : List (String × UserSession), k ∉ l.map Prod.fst →
      lookupSession l k = none := by
  intro l
  induction l with
  | nil => intro _; rfl
  | cons p rest ih =>
    intro h
    have h1 : ¬ p.1 = k := by
      intro he
      exact h (by simp [he])
    simp only [lookupSession, if_neg h1]
    exact ih (fun hm => h (List.mem_cons_of_mem _ hm))

theorem cleanup_no_expired (m : SessionMemory) (now : ℚ)
    (h : ∀ p ∈ m.sessions, p.2.is_expired m.ttl_seconds now = false) :
    m.cleanup_expired_sessions now = m := by
  unfold SessionMemory.cleanup_expired_sessions
  have h1 : m.sessions.filter (fun p => ! p.2.is_expired m.ttl_seconds now) =
      m.sessions :=
    List.filter_eq_self.mpr (fun p hp => by rw [h p hp]; rfl)
  have h2 : m.sessions.filter (fun p => p.2.is_expired m.ttl_seconds now) = [] := by
    rw [List.filter_eq_nil_iff]
    intro p hp
    rw [h p hp]
    exact Bool.false_ne_true
  simp [h1, h2]

theorem createMany_append (m : SessionMemory) (l₁ l₂ : List (String × ℚ)) :
    createMany m (l₁ ++ l₂) = createMany (createMany m l₁) l₂ := by
  simp [createMany]

theorem createMany_singleton (m : SessionMemory) (p : String × ℚ) :
    createMany m [p] = (m.create_session p.1 p.2).2 := rfl

/-- A `create_session` call on a new key with nothing expired and room to
spare: plain insertion at the back. -/
theorem create_session_under_capacity (m : SessionMemory) (sid : String)
    (now : ℚ) (hlook : lookupSession m.sessions sid = none)
    (hclean : ∀ p ∈ m.sessions, p.2.is_expired m.ttl_seconds now = false)
    (hcap : m.sessions.length < m.max_sessions) :
    m.create_session sid now =
      (sid, { m with
        sessions := m.sessions ++ [(sid, freshSession sid now)]
        total_sessions_created := m.total_sessions_created + 1 }) := by
  unfold SessionMemory.create_session
  rw [hlook]
  simp only [Option.isSome_none, Bool.false_eq_true, if_false]
  rw [cleanup_no_expired m now hclean]
  rw [if_neg (Nat.not_le.mpr hcap)]

/-- A `create_session` call on a new key with nothing expired and the
store at capacity: the minimal-`last_accessed` entry is deleted, then the
new session inserted at the back. -/
theorem create_session_at_capacity (m : SessionMemory) (sid : String)
    (now : ℚ) (q : String × UserSession)
    (hlook : lookupSession m.sessions sid = none)
    (hclean : ∀ p ∈ m.sessions, p.2.is_expired m.ttl_seconds now = false)
    (hcap : m.max_sessions ≤ m.sessions.length)
    (hmin : minByLastAccessed m.sessions = some q) :
    m.create_session sid now =
      (sid, { m with
        sessions := m.sessions.filter (fun p => p.1 ≠ q.1) ++
          [(sid, freshSession sid now)]
        total_sessions_created := m.total_sessions_created + 1 }) := by
  unfold SessionMemory.create_session
  rw [hlook]
  simp only [Option.isSome_none, Bool.false_eq_true, if_false]
  rw [cleanup_no_expired m now hclean]
  rw [if_pos hcap]
  unfold SessionMemory.remove_oldest_session
  rw [hmin]

theorem foldl_minStep_stays :
    ∀ (xs : List (String × UserSession)) (q : String × UserSession),
      (∀ y ∈ xs, ¬ y.2.last_accessed < q.2.last_accessed) →
      xs.foldl minStep (some q) = some q := by
  intro xs
  induction xs with
  | nil =>
    intro q _
    rfl
  | cons y ys ih =>
    intro q h
    rw [List.foldl_cons]
    have hstep : minStep (some q) y = some q := by
      show (if y.2.last_accessed < q.2.last_accessed then some y else some q) =
        some q
      rw [if_neg (h y (List.mem_cons_self y ys))]
    rw [hstep]
    exact ih q (fun z hz => h z (List.mem_cons_of_mem y hz))

/-- When the head is strictly minimal, Python's `min` returns it. -/
theorem minByLastAccessed_cons_min (x : String × UserSession)
    (xs : List (String × UserSession))
    (h : ∀ y ∈ xs, ¬ y.2.last_accessed < x.2.last_accessed) :
    minByLastAccessed (x :: xs) = some x := by
  unfold minByLastAccessed
  rw [List.foldl_cons]
  have hstep : minStep none x = some x := rfl
  rw [hstep]
  exact foldl_minStep_stays xs x h

theorem filter_ne_head (x : String × UserSession)
    (xs : List (String × UserSession)) (h : ∀ y ∈ xs, y.1 ≠ x.1) :
    (x :: xs).filter (fun p => p.1 ≠ x.1) = xs := by
  rw [List.filter_cons]
  have h1 : (decide (x.1 ≠ x.1)) = false := by simp
  rw [h1]
  simp only [Bool.false_eq_true, if_false]
  exact List.filter_eq_self.mpr (fun y hy => by simp [h y hy])

/-- Filling an under-capacity store: distinct keys created at times within
ttl of one another insert in order, with no expiry and no eviction. -/
theorem createMany_fill (N : Nat) (ttl : ℚ) :
    ∀ l : List (String × ℚ), (l.map Prod.fst).Nodup →
      (∀ p ∈ l, ∀ q ∈ l, q.2 - p.2 ≤ ttl) → l.length ≤ N →
      createMany (SessionMemory.init N ttl) l =
        { sessions := freshEntries l
          max_sessions := N
          ttl_seconds := ttl
          total_sessions_created := l.length
          total_sessions_expired := 0
          total_conversations := 0 } := by
  intro l
  induction l using List.reverseRecOn with
  | nil =>
    intro _ _ _
    rfl
  | append_singleton l p ih =>
    intro hnodup httl hlen
    have hnodup' : (l.map Prod.fst).Nodup := by
      rw [List.map_append] at hnodup
      exact hnodup.sublist (List.sublist_append_left _ _)
    have httl' : ∀ a ∈ l, ∀ b ∈ l, b.2 - a.2 ≤ ttl := fun a ha b hb =>
      httl a (List.mem_append_left _ ha) b (List.mem_append_left _ hb)
    have hlen' : l.length ≤ N := by
      rw [List.length_append] at hlen
      omega
    rw [createMany_append, ih hnodup' httl' hlen']
    have hmem : p.1 ∉ l.map Prod.fst := by
      rw [List.map_append] at hnodup
      have := (List.nodup_append.mp hnodup).2.2
      intro hm
      exact this hm (by simp)
    have hlook : lookupSession (freshEntries l) p.1 = none :=
      lookupSession_eq_none p.1 _ (by rw [freshEntries_map_fst]; exact hmem)
    have hclean : ∀ q ∈ freshEntries l,
        q.2.is_expired ttl p.2 = false := by
      intro q hq
      simp only [freshEntries, List.mem_map] at hq
      obtain ⟨a, ha, rfl⟩ := hq
      simp only [UserSession.is_expired, freshSession]
      rw [decide_eq_false_iff_not]
      exact not_lt.mpr (httl a (List.mem_append_left _ ha) p
        (List.mem_append_right _ (List.mem_singleton_self p)))
    have hcap : (freshEntries l).length < N := by
      rw [List.length_append] at hlen
      simp only [freshEntries, List.length_map]
      simp at hlen
      omega
    rw [createMany_singleton,
      create_session_under_capacity _ p.1 p.2 hlook hclean hcap]
    simp [freshEntries]

/-- C4: capacity law.  With `max_sessions = N ≥ 1`, creating `N+1`
distinct sessions at strictly increasing times all within ttl of one
another (so none expires), the `(N+1)`th creation evicts exactly one
session — the first-created, which under strictly increasing access times
is the unique minimal-`last_accessed` (least-recently-used) one — leaving
the store holding exactly the `N` later sessions, in creation order. -/
theorem C4_capacity_law (N : Nat) (ttl : ℚ) (l : List (String × ℚ))
    (hN : 0 < N) (hlen : l.length = N + 1)
    (hnodup : (l.map Prod.fst).Nodup)
    (hord : l.Pairwise (fun p q => p.2 < q.2))
    (httl : ∀ p ∈ l, ∀ q ∈ l, q.2 - p.2 ≤ ttl) :
    (createMany (SessionMemory.init N ttl) l).sessions.map Prod.fst =
      (l.map Prod.fst).tail ∧
    (createMany (SessionMemory.init N ttl) l).sessions.length = N := by
  rcases List.eq_nil_or_concat l with rfl | ⟨init, last, rfl⟩
  · simp at hlen
  · rw [List.concat_eq_append] at hlen hnodup hord httl ⊢
    have hinitlen : init.length = N := by
      rw [List.length_append] at hlen
      simp at hlen
      omega
    have hnodupI : (init.map Prod.fst).Nodup := by
      rw [List.map_append] at hnodup
      exact hnodup.sublist (List.sublist_append_left _ _)
    have httlI : ∀ a ∈ init, ∀ b ∈ init, b.2 - a.2 ≤ ttl := fun a ha b hb =>
      httl a (List.mem_append_left _ ha) b (List.mem_append_left _ hb)
    rw [createMany_append,
      createMany_fill N ttl init hnodupI httlI (le_of_eq hinitlen),
      createMany_singleton]
    have hmemL : last.1 ∉ init.map Prod.fst := by
      rw [List.map_append] at hnodup
      have hdisj := (List.nodup_append.mp hnodup).2.2
      intro hm
      exact hdisj hm (by simp)
    have hlook : lookupSession (freshEntries init) last.1 = none :=
      lookupSession_eq_none last.1 _ (by rw [freshEntries_map_fst]; exact hmemL)
    have hclean : ∀ q ∈ freshEntries init,
        q.2.is_expired ttl last.2 = false := by
      intro q hq
      simp only [freshEntries, List.mem_map] at hq
      obtain ⟨a, ha, rfl⟩ := hq
      simp only [UserSession.is_expired, freshSession]
      rw [decide_eq_false_iff_not]
      exact not_lt.mpr (httl a (List.mem_append_left _ ha) last
        (List.mem_append_right _ (List.mem_singleton_self last)))
    have hcap : N ≤ (freshEntries init).length := by
      simp only [freshEntries, List.length_map]
      omega
    have hpw : (freshEntries init).Pairwise
        (fun a b => a.2.last_accessed < b.2.last_accessed) := by
      simp only [freshEntries]
      refine List.pairwise_map.mpr ?_
      have hordI : init.Pairwise (fun p q => p.2 < q.2) :=
        hord.sublist (List.sublist_append_left _ _)
      exact hordI.imp (fun h => by simpa [freshSession] using h)
    cases hfe : freshEntries init with
    | nil =>
      exfalso
      have hlenfe : (freshEntries init).length = N := by
        simp [freshEntries, hinitlen]
      rw [hfe] at hlenfe
      simp at hlenfe
      omega
    | cons x xs =>
      rw [hfe] at hlook hclean hcap hpw
      have hmin : minByLastAccessed (x :: xs) = some x :=
        minByLastAccessed_cons_min x xs
          (fun y hy => not_lt.mpr
            (le_of_lt ((List.pairwise_cons.mp hpw).1 y hy)))
      rw [create_session_at_capacity _ last.1 last.2 x hlook hclean hcap hmin]
      have hxs : ∀ y ∈ xs, y.1 ≠ x.1 := by
        have hnx : ((x :: xs).map Prod.fst).Nodup := by
          rw [← hfe, freshEntries_map_fst]
          exact hnodupI
        simp only [List.map_cons] at hnx
        have hx := (List.nodup_cons.mp hnx).1
        intro y hy he
        exact hx (he ▸ List.mem_map_of_mem Prod.fst hy)
      rw [filter_ne_head x xs hxs]
      have hif : init.map Prod.fst = x.1 :: xs.map Prod.fst := by
        rw [← freshEntries_map_fst, hfe]
        simp
      have hxslen : xs.length + 1 = N := by
        have hlc : (x :: xs).length = init.length := by
          rw [← hfe]
          simp [freshEntries]
        simp at hlc
        omega
      constructor
      · simp only [List.map_append, hif, List.cons_append, List.tail_cons]
        simp
      · simp only [List.length_append, List.length_cons, List.length_nil]
        omega

/-- A concrete instance of the capacity law: `max_sessions = 2`, sessions
"a", "b", "c" created at times 0, 1, 2 with ttl 100 — "a" is evicted at
the third creation, leaving ["b", "c"]. -/
theorem C4_capacity_law_witness :
    0 < 2 ∧
    ([("a", (0 : ℚ)), ("b", 1), ("c", 2)] : List (String × ℚ)).length = 2 + 1 ∧
    (([("a", (0 : ℚ)), ("b", 1), ("c", 2)] : List (String × ℚ)).map
      Prod.fst).Nodup ∧
    ([("a", (0 : ℚ)), ("b", 1), ("c", 2)] : List (String × ℚ)).Pairwise
      (fun p q => p.2 < q.2) ∧
    (∀ p ∈ ([("a", (0 : ℚ)), ("b", 1), ("c", 2)] : List (String × ℚ)),
      ∀ q ∈ ([("a", (0 : ℚ)), ("b", 1), ("c", 2)] : List (String × ℚ)),
        q.2 - p.2 ≤ (100 : ℚ)) ∧
    ((createMany (SessionMemory.init 2 100)
        [("a", 0), ("b", 1), ("c", 2)]).sessions.map Prod.fst =
      (([("a", (0 : ℚ)), ("b", 1), ("c", 2)] : List (String × ℚ)).map
        Prod.fst).tail ∧
      (createMany (SessionMemory.init 2 100)
        [("a", 0), ("b", 1), ("c", 2)]).sessions.length = 2) :=
  ⟨by decide, rfl, by decide,
    by
      refine List.pairwise_cons.mpr ⟨?_, List.pairwise_cons.mpr ⟨?_, ?_⟩⟩
      · intro q hq
        fin_cases hq <;> norm_num
      · intro q hq
        fin_cases hq <;> norm_num
      · simp,
    by
      intro p hp q hq
      fin_cases hp <;> fin_cases hq <;> norm_num,
    C4_capacity_law 2 100 [("a", 0), ("b", 1), ("c", 2)] (by decide) rfl
      (by decide)
      (by
        refine List.pairwise_cons.mpr ⟨?_, List.pairwise_cons.mpr ⟨?_, ?_⟩⟩
        · intro q hq
          fin_cases hq <;> norm_num
        · intro q hq
          fin_cases hq <;> norm_num
        · simp)
      (by
        intro p hp q hq
        fin_cases hp <;> fin_cases hq <;> norm_num)⟩
